import Mathlib

/-!
Verification of the `simple-cli` argument-handling core
(`src/simple-cli/src/main.rs`).

The Rust code is embedded shallowly:

* `String` stands for Rust `&str` / `String`; the byte-slicing operations
  `starts_with` and `&s[n..]` are modelled on the character list `s.data`
  (the markers stripped here are ASCII, so byte indices and character
  indices coincide on every code path reached).
* `BTreeMap<&str, Argument>` is modelled as an association list kept
  strictly sorted by key, with `btreeInsert` / `btreeGet` mirroring
  `BTreeMap::insert` (replace on equal key) and `BTreeMap::get`; `strLt`
  is the lexicographic order that `Ord for str` induces (UTF-8 byte order
  coincides with scalar-value order).
* `Result<(), CMDError>` becomes `Except CMDError Unit`; `parse`
  borrows the registry immutably (Rust `&Arguments`), so its embedding
  returns no registry: the registry cannot change during a pass.
-/

def SHORT_ARG_PREFIX : String := "-"

def ARG_PREFIX : String := "--"

/-- Rust `str::starts_with`, on the character-list view of a string. -/
def starts_with (s p : String) : Bool := p.data.isPrefixOf s.data

/-- Rust byte slicing `&s[n..]`; character-based, which agrees with the
source on the ASCII markers used there. -/
def str_drop (s : String) (n : Nat) : String := ⟨s.data.drop n⟩

/-- `enum Value { Bool(String), String(String) }`. -/
inductive Value where
  | Bool (s : String)
  | String (s : String)
deriving DecidableEq

/-- `struct Argument` of the source, lifetimes erased. -/
structure Argument where
  name : String
  required : Bool
  help : Option String
  takes_value : Bool
  default_value : Option Value
  user_value : Option Value
deriving DecidableEq

/-- `Argument::new`. -/
def Argument.new (name : String) : Argument :=
  { name := name, required := false, help := none, takes_value := false,
    default_value := none, user_value := none }

/-- `enum CMDError`. -/
inductive CMDError where
  | UnexpectedArgument (s : String)
  | DuplicateArgument (s : String)
deriving DecidableEq

/-- Lexicographic order on character lists: the order `Ord for str`
uses, restated on scalar values. -/
def charsLt : List Char → List Char → Bool
  | [], [] => false
  | [], _ :: _ => true
  | _ :: _, [] => false
  | a :: as, b :: bs => if a < b then true else if b < a then false else charsLt as bs

/-- Key order of the `BTreeMap<&str, _>` model. -/
def strLt (a b : String) : Bool := charsLt a.data b.data

/-- `BTreeMap::insert`: place the binding at its sorted position,
replacing an existing binding with the same key. -/
def btreeInsert (k : String) (v : Argument) : List (String × Argument) → List (String × Argument)
  | [] => [(k, v)]
  | (k', v') :: rest =>
    if strLt k k' then (k, v) :: (k', v') :: rest
    else if k = k' then (k, v) :: rest
    else (k', v') :: btreeInsert k v rest

/-- `BTreeMap::get`. -/
def btreeGet (k : String) : List (String × Argument) → Option Argument
  | [] => none
  | (k', v') :: rest => if k = k' then some v' else btreeGet k rest

/-- `struct Arguments { args: BTreeMap<&str, Argument> }`. -/
structure Arguments where
  args : List (String × Argument)
deriving DecidableEq

/-- `Arguments::new` (the `Default` of an empty map). -/
def Arguments.new : Arguments := ⟨[]⟩

/-- `Arguments::insert_arg`: keyed by the argument's own name. -/
def Arguments.insert_arg (self : Arguments) (argument : Argument) : Arguments :=
  ⟨btreeInsert argument.name argument self.args⟩

/-- The `let arg_name = ...` of `validate_arg`: strip the long marker
when present, otherwise the short one. -/
def arg_name_of (arg : String) : String :=
  if starts_with arg ARG_PREFIX then str_drop arg ARG_PREFIX.length
  else str_drop arg SHORT_ARG_PREFIX.length

/-- `Arguments::validate_arg`; the source's `let arg_name = ...` is the
shared subterm `arg_name_of arg`. -/
def Arguments.validate_arg (self : Arguments) (arg : String) : Except CMDError Unit :=
  if !starts_with arg ARG_PREFIX && !starts_with arg SHORT_ARG_PREFIX then
    .error (.UnexpectedArgument arg)
  else
    match btreeGet (arg_name_of arg) self.args with
    | none => .error (.UnexpectedArgument (arg_name_of arg))
    | some argument =>
      if argument.user_value.isSome then
        .error (.DuplicateArgument (arg_name_of arg))
      else
        .ok ()

/-- `build_cmd_arguments`: the registry with `id` and `daemonize`. -/
def build_cmd_arguments : Arguments :=
  (Arguments.new.insert_arg
      { Argument.new "id" with required := true, takes_value := true, help := some "jail ID" }).insert_arg
    { Argument.new "daemonize" with help := some "Daemonize the jailer before execing" }

/-- `parse`: validate each token in order, stopping at the first error
(the `?` operator of the Rust loop). -/
def parse (app_arguments : Arguments) : List String → Except CMDError Unit
  | [] => .ok ()
  | arg :: rest =>
    match app_arguments.validate_arg arg with
    | .error e => .error e
    | .ok () => parse app_arguments rest

/-- `Iterator::position` as used by `split_args`. -/
def position (p : String → Bool) : List String → Option Nat
  | [] => none
  | a :: rest => if p a then some 0 else (position p rest).map (· + 1)

/-- `split_args`: cut at the first `"--"` token, dropping the marker. -/
def split_args (args : List String) : List String × List String :=
  match position (fun arg => arg == "--") args with
  | some index => (args.take index, args.drop (index + 1))
  | none => (args, [])

/-! ### Order facts about the key comparison -/

theorem charsLt_irrefl (l : List Char) : charsLt l l = false := by
  induction l with
  | nil => rfl
  | cons a as ih =>
    rw [charsLt, if_neg (lt_irrefl a), if_neg (lt_irrefl a)]
    exact ih

theorem charsLt_cons_iff {a b : Char} {as bs : List Char} :
    charsLt (a :: as) (b :: bs) = true ↔ a < b ∨ (a = b ∧ charsLt as bs = true) := by
  rw [charsLt]
  rcases lt_trichotomy a b with h | h | h
  · simp [if_pos h, h]
  · subst h
    simp [lt_irrefl]
  · rw [if_neg (lt_asymm h), if_pos h]
    simp [lt_asymm h, (ne_of_gt h : a ≠ b)]

theorem charsLt_trans : ∀ {a b c : List Char},
    charsLt a b = true → charsLt b c = true → charsLt a c = true
  | [], b, c => by
    cases b with
    | nil => intro hab; cases hab
    | cons y ys =>
      cases c with
      | nil => intro _ hbc; cases hbc
      | cons z zs => intro _ _; rfl
  | x :: xs, [], c => by intro hab; cases hab
  | x :: xs, y :: ys, [] => by intro _ hbc; cases hbc
  | x :: xs, y :: ys, z :: zs => by
    intro hab hbc
    rw [charsLt_cons_iff] at hab hbc ⊢
    rcases hab with h1 | ⟨rfl, h1⟩
    · rcases hbc with h2 | ⟨rfl, h2⟩
      · exact Or.inl (lt_trans h1 h2)
      · exact Or.inl h1
    · rcases hbc with h2 | ⟨rfl, h2⟩
      · exact Or.inl h2
      · exact Or.inr ⟨rfl, charsLt_trans h1 h2⟩

theorem charsLt_total_of_ne : ∀ {a b : List Char},
    a ≠ b → charsLt a b = true ∨ charsLt b a = true
  | [], [] => fun h => absurd rfl h
  | [], _ :: _ => fun _ => Or.inl rfl
  | _ :: _, [] => fun _ => Or.inr rfl
  | x :: xs, y :: ys => fun h => by
    rcases lt_trichotomy x y with hxy | hxy | hxy
    · exact Or.inl (charsLt_cons_iff.mpr (Or.inl hxy))
    · subst hxy
      have hne : xs ≠ ys := fun hxs => h (by rw [hxs])
      rcases charsLt_total_of_ne hne with h1 | h1
      · exact Or.inl (charsLt_cons_iff.mpr (Or.inr ⟨rfl, h1⟩))
      · exact Or.inr (charsLt_cons_iff.mpr (Or.inr ⟨rfl, h1⟩))
    · exact Or.inr (charsLt_cons_iff.mpr (Or.inl hxy))

theorem strLt_irrefl (s : String) : strLt s s = false := charsLt_irrefl s.data

theorem strLt_trans {a b c : String} (h1 : strLt a b = true) (h2 : strLt b c = true) :
    strLt a c = true := charsLt_trans h1 h2

theorem strLt_total_of_ne {a b : String} (h : a ≠ b) :
    strLt a b = true ∨ strLt b a = true := by
  apply charsLt_total_of_ne
  intro hd
  exact h (by cases a; cases b; cases hd; rfl)

/-! ### Facts about the map model -/

theorem mem_of_btreeGet_eq_some {k : String} {v : Argument} :
    ∀ {l : List (String × Argument)}, btreeGet k l = some v → (k, v) ∈ l
  | [], h => by cases h
  | (k', v') :: rest, h => by
    rw [btreeGet] at h
    by_cases hk : k = k'
    · subst hk
      rw [if_pos rfl] at h
      cases h
      exact List.mem_cons_self _ _
    · rw [if_neg hk] at h
      exact List.mem_cons_of_mem _ (mem_of_btreeGet_eq_some h)

theorem btreeGet_btreeInsert_self (k : String) (v : Argument) :
    ∀ l : List (String × Argument), btreeGet k (btreeInsert k v l) = some v
  | [] => by rw [btreeInsert, btreeGet, if_pos rfl]
  | (k', v') :: rest => by
    rw [btreeInsert]
    by_cases hlt : strLt k k' = true
    · rw [if_pos hlt, btreeGet, if_pos rfl]
    · rw [if_neg hlt]
      by_cases hk : k = k'
      · rw [if_pos hk, btreeGet, if_pos rfl]
      · rw [if_neg hk, btreeGet, if_neg hk]
        exact btreeGet_btreeInsert_self k v rest

theorem btreeInsert_same_key (k : String) (v1 v2 : Argument) :
    ∀ l : List (String × Argument),
      btreeInsert k v2 (btreeInsert k v1 l) = btreeInsert k v2 l
  | [] => by
    rw [btreeInsert, btreeInsert, btreeInsert,
      if_neg (by rw [strLt_irrefl]; exact Bool.false_ne_true), if_pos rfl]
  | (k', v') :: rest => by
    by_cases hlt : strLt k k' = true
    · rw [btreeInsert, if_pos hlt, btreeInsert,
        if_neg (by rw [strLt_irrefl]; exact Bool.false_ne_true), if_pos rfl,
        btreeInsert, if_pos hlt]
    · by_cases hk : k = k'
      · rw [btreeInsert, if_neg hlt, if_pos hk, btreeInsert,
          if_neg (by rw [strLt_irrefl]; exact Bool.false_ne_true), if_pos rfl,
          btreeInsert, if_neg hlt, if_pos hk]
      · rw [btreeInsert, if_neg hlt, if_neg hk, btreeInsert, if_neg hlt, if_neg hk,
          btreeInsert, if_neg hlt, if_neg hk, btreeInsert_same_key k v1 v2 rest]

theorem mem_btreeInsert {p : String × Argument} {k : String} {v : Argument} :
    ∀ {l : List (String × Argument)}, p ∈ btreeInsert k v l → p = (k, v) ∨ p ∈ l
  | [], h => by
    rw [btreeInsert] at h
    exact Or.inl (List.mem_singleton.mp h)
  | (k', v') :: rest, h => by
    rw [btreeInsert] at h
    by_cases hlt : strLt k k' = true
    · rw [if_pos hlt] at h
      rcases List.mem_cons.mp h with h | h
      · exact Or.inl h
      · exact Or.inr h
    · rw [if_neg hlt] at h
      by_cases hk : k = k'
      · rw [if_pos hk] at h
        rcases List.mem_cons.mp h with h | h
        · exact Or.inl h
        · exact Or.inr (List.mem_cons_of_mem _ h)
      · rw [if_neg hk] at h
        rcases List.mem_cons.mp h with h | h
        · exact Or.inr (h ▸ List.mem_cons_self _ _)
        · rcases mem_btreeInsert h with h | h
          · exact Or.inl h
          · exact Or.inr (List.mem_cons_of_mem _ h)

/-- The iteration-order invariant of the map model: keys strictly
increasing in the order of `Ord for str`. -/
def sortedKeys (l : List (String × Argument)) : Prop :=
  l.Pairwise (fun p q => strLt p.1 q.1 = true)

theorem btreeInsert_sorted (k : String) (v : Argument) :
    ∀ {l : List (String × Argument)}, sortedKeys l → sortedKeys (btreeInsert k v l)
  | [], _ => by
    rw [btreeInsert]
    exact List.pairwise_singleton _ _
  | (k', v') :: rest, h => by
    rcases List.pairwise_cons.mp h with ⟨hk', hrest⟩
    rw [btreeInsert]
    by_cases hlt : strLt k k' = true
    · rw [if_pos hlt]
      refine List.pairwise_cons.mpr ⟨?_, h⟩
      intro q hq
      rcases List.mem_cons.mp hq with hq | hq
      · rw [hq]
        exact hlt
      · exact strLt_trans hlt (hk' q hq)
    · rw [if_neg hlt]
      by_cases hk : k = k'
      · rw [if_pos hk]
        refine List.pairwise_cons.mpr ⟨?_, hrest⟩
        intro q hq
        rw [hk]
        exact hk' q hq
      · rw [if_neg hk]
        refine List.pairwise_cons.mpr ⟨?_, btreeInsert_sorted k v hrest⟩
        intro q hq
        rcases mem_btreeInsert hq with hq | hq
        · rw [hq]
          rcases strLt_total_of_ne hk with h1 | h1
          · exact absurd h1 hlt
          · exact h1
        · exact hk' q hq

/-! ### Facts about the token splitter -/

theorem position_eq_none {l : List String} (h : "--" ∉ l) :
    position (fun arg => arg == "--") l = none := by
  induction l with
  | nil => rfl
  | cons a rest ih =>
    have ha : (a == "--") = false :=
      beq_eq_false_iff_ne.mpr (fun hq => h (hq ▸ List.mem_cons_self _ _))
    have hrest : "--" ∉ rest := fun hm => h (List.mem_cons_of_mem _ hm)
    simp [position, ha, ih hrest]

theorem position_append (A B : List String) (h : "--" ∉ A) :
    position (fun arg => arg == "--") (A ++ "--" :: B) = some A.length := by
  induction A with
  | nil => simp [position]
  | cons a as ih =>
    have ha : (a == "--") = false :=
      beq_eq_false_iff_ne.mpr (fun hq => h (hq ▸ List.mem_cons_self _ _))
    have has : "--" ∉ as := fun hm => h (List.mem_cons_of_mem _ hm)
    simp [position, ha, ih has]

/-! ### The claims -/

/-- Claim C3: for every input sequence without a `"--"` token (the empty
sequence included), `split_args` returns the whole input as own
arguments and forwards nothing. -/
theorem split_args_no_separator (S : List String) (h : "--" ∉ S) :
    split_args S = (S, []) := by
  simp [split_args, position_eq_none h]

/-- Witness for C3 at the concrete input `["foo", "-x"]`. -/
theorem split_args_no_separator_witness :
    "--" ∉ ["foo", "-x"] ∧ split_args ["foo", "-x"] = (["foo", "-x"], []) :=
  ⟨by decide, split_args_no_separator ["foo", "-x"] (by decide)⟩

/-- Claim C4: for `S = A ++ ["--"] ++ B` with no `"--"` inside `A`,
`split_args S = (A, B)`; the first `"--"` is the boundary and is
dropped, while any further `"--"` tokens stay inside `B` untouched. -/
theorem split_args_first_separator (A B : List String) (h : "--" ∉ A) :
    split_args (A ++ "--" :: B) = (A, B) := by
  simp only [split_args, position_append A B h]
  rw [Prod.mk.injEq]
  refine ⟨List.take_left _ _, ?_⟩
  rw [List.append_cons, show A.length + 1 = (A ++ ["--"]).length from by simp,
    List.drop_left]

/-- Witness for C4 at `A = ["foo"]`, `B = ["--", "--bar"]`: the later
`"--"` stays inside the forwarded part. -/
theorem split_args_first_separator_witness :
    "--" ∉ ["foo"] ∧ split_args (["foo"] ++ "--" :: ["--", "--bar"]) = (["foo"], ["--", "--bar"]) :=
  ⟨by decide, split_args_first_separator ["foo"] ["--", "--bar"] (by decide)⟩

/-- Claim C5: a token starting with neither marker fails as
`UnexpectedArgument` carrying the original, unstripped token. -/
theorem validate_arg_unprefixed (r : Arguments) (t : String)
    (h2 : starts_with t ARG_PREFIX = false) (h1 : starts_with t SHORT_ARG_PREFIX = false) :
    r.validate_arg t = .error (.UnexpectedArgument t) := by
  unfold Arguments.validate_arg
  rw [h1, h2]
  rfl

/-- Witness for C5 at the token `"plainword"`. -/
theorem validate_arg_unprefixed_witness :
    starts_with "plainword" ARG_PREFIX = false ∧
      starts_with "plainword" SHORT_ARG_PREFIX = false ∧
      build_cmd_arguments.validate_arg "plainword" = .error (.UnexpectedArgument "plainword") :=
  ⟨rfl, rfl, validate_arg_unprefixed build_cmd_arguments "plainword" rfl rfl⟩

/-- Claim C7: a marker-bearing token whose stripped name is not in the
registry fails as `UnexpectedArgument` carrying the stripped name. -/
theorem validate_arg_unknown_name (r : Arguments) (t : String)
    (h : starts_with t ARG_PREFIX = true ∨ starts_with t SHORT_ARG_PREFIX = true)
    (hg : btreeGet (arg_name_of t) r.args = none) :
    r.validate_arg t = .error (.UnexpectedArgument (arg_name_of t)) := by
  rcases h with h | h <;> simp [Arguments.validate_arg, h, hg]

/-- Witness for C7 at the token `"--bogus"`: the payload is the
stripped `"bogus"`, not `"--bogus"`. -/
theorem validate_arg_unknown_name_witness :
    arg_name_of "--bogus" = "bogus" ∧
      build_cmd_arguments.validate_arg "--bogus" = .error (.UnexpectedArgument "bogus") :=
  ⟨rfl, validate_arg_unknown_name build_cmd_arguments "--bogus" (Or.inl rfl) rfl⟩

/-- Claim C10: against a registry with no empty-named definition, the
three degenerate tokens `""`, `"-"` and `"--"` each fail as
`UnexpectedArgument` carrying the empty string (the first at the
marker check, the other two at the lookup of the stripped empty name). -/
theorem validate_arg_degenerate_tokens (r : Arguments) (h : btreeGet "" r.args = none) :
    r.validate_arg "" = .error (.UnexpectedArgument "") ∧
    r.validate_arg "-" = .error (.UnexpectedArgument "") ∧
    r.validate_arg "--" = .error (.UnexpectedArgument "") := by
  refine ⟨rfl, ?_, ?_⟩
  · have e : r.validate_arg "-" = (match btreeGet "" r.args with
      | none => .error (.UnexpectedArgument "")
      | some argument =>
        if argument.user_value.isSome then .error (.DuplicateArgument "") else .ok ()) := rfl
    rw [e, h]
  · have e : r.validate_arg "--" = (match btreeGet "" r.args with
      | none => .error (.UnexpectedArgument "")
      | some argument =>
        if argument.user_value.isSome then .error (.DuplicateArgument "") else .ok ()) := rfl
    rw [e, h]

/-- Witness for C10 at the registry of `build_cmd_arguments`. -/
theorem validate_arg_degenerate_tokens_witness :
    btreeGet "" build_cmd_arguments.args = none ∧
      (build_cmd_arguments.validate_arg "" = .error (.UnexpectedArgument "") ∧
       build_cmd_arguments.validate_arg "-" = .error (.UnexpectedArgument "") ∧
       build_cmd_arguments.validate_arg "--" = .error (.UnexpectedArgument "")) :=
  ⟨rfl, validate_arg_degenerate_tokens build_cmd_arguments rfl⟩

/-- Claim C6: when a definition named `id` with unset `user_value` is
registered, `"--id"` and `"-id"` both strip to the same name `id` and
both validate successfully; any token starting with the long marker has
exactly the two-character long marker stripped, never the short one. -/
theorem validate_arg_long_short_id (r : Arguments) (a : Argument)
    (h : btreeGet "id" r.args = some a) (hv : a.user_value = none) :
    arg_name_of "--id" = "id" ∧ arg_name_of "-id" = "id" ∧
    r.validate_arg "--id" = .ok () ∧ r.validate_arg "-id" = .ok () ∧
    (∀ t : String, starts_with t ARG_PREFIX = true → arg_name_of t = str_drop t 2) := by
  refine ⟨rfl, rfl, ?_, ?_, ?_⟩
  · have e : r.validate_arg "--id" = (match btreeGet "id" r.args with
      | none => .error (.UnexpectedArgument "id")
      | some argument =>
        if argument.user_value.isSome then .error (.DuplicateArgument "id") else .ok ()) := rfl
    rw [e, h]
    simp [hv]
  · have e : r.validate_arg "-id" = (match btreeGet "id" r.args with
      | none => .error (.UnexpectedArgument "id")
      | some argument =>
        if argument.user_value.isSome then .error (.DuplicateArgument "id") else .ok ()) := rfl
    rw [e, h]
    simp [hv]
  · intro t ht
    unfold arg_name_of
    rw [if_pos ht]
    rfl

/-- Witness for C6 at the registry of `build_cmd_arguments`. -/
theorem validate_arg_long_short_id_witness :
    build_cmd_arguments.validate_arg "--id" = .ok () ∧
      build_cmd_arguments.validate_arg "-id" = .ok () :=
  ⟨(validate_arg_long_short_id build_cmd_arguments
      { Argument.new "id" with required := true, takes_value := true, help := some "jail ID" }
      rfl rfl).2.2.1,
   (validate_arg_long_short_id build_cmd_arguments
      { Argument.new "id" with required := true, takes_value := true, help := some "jail ID" }
      rfl rfl).2.2.2.1⟩

theorem validate_arg_not_duplicate {r : Arguments}
    (hr : ∀ p ∈ r.args, (p.2).user_value = none) (t s : String) :
    r.validate_arg t ≠ .error (.DuplicateArgument s) := by
  unfold Arguments.validate_arg
  by_cases hc : (!starts_with t ARG_PREFIX && !starts_with t SHORT_ARG_PREFIX) = true
  · rw [if_pos hc]
    simp
  · rw [if_neg hc]
    cases hg : btreeGet (arg_name_of t) r.args with
    | none => simp
    | some a =>
      have ha : a.user_value = none := hr (arg_name_of t, a) (mem_of_btreeGet_eq_some hg)
      simp [ha]

/-- Claim C2: on a registry whose definitions all have `user_value`
unset, `parse` can never report `DuplicateArgument` — validation only
reads the registry (Rust `&self`), so no pass ever stamps `user_value`,
and the embedding's `parse` returns no modified registry at all. -/
theorem parse_never_duplicate (r : Arguments)
    (h : ∀ p ∈ r.args, (p.2).user_value = none) (args : List String) (s : String) :
    parse r args ≠ .error (.DuplicateArgument s) := by
  induction args with
  | nil => simp [parse]
  | cons a rest ih =>
    rw [parse]
    cases hv : r.validate_arg a with
    | error e =>
      have hne := validate_arg_not_duplicate h a s
      rw [hv] at hne
      simpa using hne
    | ok u =>
      cases u
      simpa using ih

/-- Witness for C2: the registry of `build_cmd_arguments` and the
repeated token `"--id"`. -/
theorem parse_never_duplicate_witness :
    (∀ p ∈ build_cmd_arguments.args, (p.2).user_value = none) ∧
      parse build_cmd_arguments ["--id", "--id"] ≠ .error (.DuplicateArgument "id") :=
  ⟨by decide, parse_never_duplicate build_cmd_arguments (by decide) ["--id", "--id"] "id"⟩

/-- Claim C8: the loop validates tokens in order and propagates exactly
the first failure, whatever tokens follow it; when every token
validates, the pass succeeds with no payload. -/
theorem parse_fail_fast (r : Arguments) :
    (∀ (pre : List String) (t : String) (rest : List String) (e : CMDError),
        (∀ u ∈ pre, r.validate_arg u = .ok ()) → r.validate_arg t = .error e →
        parse r (pre ++ t :: rest) = .error e) ∧
    (∀ args : List String, (∀ u ∈ args, r.validate_arg u = .ok ()) → parse r args = .ok ()) := by
  constructor
  · intro pre
    induction pre with
    | nil =>
      intro t rest e _ ht
      rw [List.nil_append, parse, ht]
    | cons u pre' ih =>
      intro t rest e hpre ht
      have hu : r.validate_arg u = .ok () := hpre u (List.mem_cons_self _ _)
      rw [List.cons_append, parse, hu]
      exact ih t rest e (fun v hv => hpre v (List.mem_cons_of_mem _ hv)) ht
  · intro args hall
    induction args with
    | nil => rfl
    | cons a rest ih =>
      have ha : r.validate_arg a = .ok () := hall a (List.mem_cons_self _ _)
      rw [parse, ha]
      exact ih (fun v hv => hall v (List.mem_cons_of_mem _ hv))

/-- Witness for C8: `"plainword"` is the first invalid token and its
error is reported even though an also-invalid token follows it. -/
theorem parse_fail_fast_witness :
    parse build_cmd_arguments ["--id", "plainword", "--nonsense"] =
      .error (.UnexpectedArgument "plainword") :=
  (parse_fail_fast build_cmd_arguments).1 ["--id"] "plainword" ["--nonsense"]
    (.UnexpectedArgument "plainword")
    (fun u hu => by rw [List.mem_singleton.mp hu]; exact rfl) rfl

/-- Claim C9: inserting two definitions with the same name leaves the
registry exactly as if only the second had been inserted, the second
definition is what the name now maps to, and sortedness of the key
order (iteration order of the `BTreeMap`) is preserved. -/
theorem insert_arg_last_write_wins (r : Arguments) (a1 a2 : Argument)
    (h : a1.name = a2.name) :
    ((r.insert_arg a1).insert_arg a2).args = (r.insert_arg a2).args ∧
    btreeGet a2.name ((r.insert_arg a1).insert_arg a2).args = some a2 ∧
    (sortedKeys r.args → sortedKeys ((r.insert_arg a1).insert_arg a2).args) := by
  refine ⟨?_, ?_, ?_⟩
  · show btreeInsert a2.name a2 (btreeInsert a1.name a1 r.args) = btreeInsert a2.name a2 r.args
    rw [h]
    exact btreeInsert_same_key a2.name a1 a2 r.args
  · exact btreeGet_btreeInsert_self a2.name a2 _
  · intro hs
    exact btreeInsert_sorted _ _ (btreeInsert_sorted _ _ hs)

/-- Witness for C9: two distinct definitions both named `"id"`. -/
theorem insert_arg_last_write_wins_witness :
    ((Arguments.new.insert_arg (Argument.new "id")).insert_arg
        { Argument.new "id" with required := true }).args =
      (Arguments.new.insert_arg { Argument.new "id" with required := true }).args ∧
    btreeGet "id" ((Arguments.new.insert_arg (Argument.new "id")).insert_arg
        { Argument.new "id" with required := true }).args =
      some { Argument.new "id" with required := true } ∧
    sortedKeys ((Arguments.new.insert_arg (Argument.new "id")).insert_arg
        { Argument.new "id" with required := true }).args :=
  ⟨(insert_arg_last_write_wins Arguments.new (Argument.new "id")
      { Argument.new "id" with required := true } rfl).1,
   (insert_arg_last_write_wins Arguments.new (Argument.new "id")
      { Argument.new "id" with required := true } rfl).2.1,
   (insert_arg_last_write_wins Arguments.new (Argument.new "id")
      { Argument.new "id" with required := true } rfl).2.2 List.Pairwise.nil⟩

/-- Claim C1 expects `DuplicateArgument "id"` on the second `"--id"`;
evaluating the code at that input shows the whole pass succeeds
instead: `validate_arg` only reads `user_value` and no code path ever
sets it after a first successful validation, so the duplicate check can
never fire. -/
theorem parse_repeated_id_returns_ok :
    parse build_cmd_arguments ["--id", "--id"] = .ok () := rfl
